import Mathlib

/-!
Verification development for `nettoolkit_db/database.py`.

The module is shallowly embedded: Python strings become lists of
characters, the filesystem becomes an association list from path to file
content, a pandas `DataFrame` becomes a list of column labels plus rows
of (column, optional cell) pairs (a missing cell models `NaN`), and the
external spreadsheet library's acceptance of a sheet name is an abstract
boolean parameter `ok`.  Fallible Python code returns `Option`/`Except`;
the unbounded `while True` probe loop is given explicit fuel.
-/

/-- Python strings are modelled as lists of characters. -/
abbrev Str := List Char

/-- Python `file.split(".")`: splits at every dot, keeping empty
segments, returning `[s]` when `s` has no dot. -/
def pySplitDot : Str → List Str
  | [] => [[]]
  | c :: rest =>
    match pySplitDot rest with
    | [] => [[]]
    | h :: t => if c = '.' then [] :: h :: t else (c :: h) :: t

/-- Python `".".join(parts)`. -/
def pyJoinDot : List Str → Str
  | [] => []
  | [s] => s
  | s :: rest => s ++ '.' :: pyJoinDot rest

/-- Fuel-based decimal printer: with fuel at least `n` this is the usual
decimal representation of `n`, i.e. Python `str(n)`. -/
def decimalAux : Nat → Nat → Str
  | 0, n => if n < 10 then [Nat.digitChar n] else []
  | fuel + 1, n =>
    if n < 10 then [Nat.digitChar n]
    else decimalAux fuel (n / 10) ++ [Nat.digitChar (n % 10)]

/-- Decimal representation of a natural number, the model of Python
`str(n)`. -/
def decimal (n : Nat) : Str := decimalAux n n

/-- Cell values carried by a sheet: `none` models pandas `NaN`. -/
abbrev Cell := Option Str

/-- A pandas DataFrame: ordered column labels plus rows, each row an
association list from column label to optional cell value. -/
structure DataFrame where
  cols : List Str
  rows : List (List (Str × Cell))
deriving DecidableEq

/-- First value bound to key `k` in an association list. -/
def lookupKey {α : Type} (k : Str) : List (Str × α) → Option α
  | [] => none
  | (k', v) :: rest => if k = k' then some v else lookupKey k rest

/-- Whether the association list binds key `k`. -/
def containsKey {α : Type} (d : List (Str × α)) (k : Str) : Bool :=
  (lookupKey k d).isSome

/-- Replacement step used by an in-place dictionary assignment: the
binding whose key is `k` becomes `(k, v)`, all others are unchanged. -/
def substKV {α : Type} (k : Str) (v : α) (p : Str × α) : Str × α :=
  if p.1 = k then (k, v) else p

/-- Python `d[k] = v` on an (ordered) dict modelled as an association
list: an existing binding is replaced in place, a new one is appended. -/
def dictSet {α : Type} (d : List (Str × α)) (k : Str) (v : α) : List (Str × α) :=
  if containsKey d k then d.map (substKV k v)
  else d ++ [(k, v)]

/-- Python `old.update(new)`: repeated `d[k] = v` over the new pairs. -/
def dictUpdate {α : Type} (old new : List (Str × α)) : List (Str × α) :=
  new.foldl (fun d p => dictSet d p.1 p.2) old

/-- Keys of an association list, in order. -/
def keys {α : Type} (d : List (Str × α)) : List Str := d.map Prod.fst

/-- Number of bindings of key `k` in an association list. -/
def countKey {α : Type} (d : List (Str × α)) (k : Str) : Nat :=
  ((keys d).filter (fun x => decide (x = k))).length

/-- Content stored at a path: either a readable workbook (an ordered
list of named sheets) or a file that fails to open as a workbook. -/
inductive FileContent where
  | workbook (sheets : List (Str × DataFrame))
  | invalid
deriving DecidableEq

/-- The filesystem: an association list from path to file content; a
path that is absent holds no file. -/
abbrev FS := List (Str × FileContent)

/-- Model of `pd.ExcelFile(path)` (the body of `XL_READ.__init__`):
succeeds with the stored sheets exactly when the path holds a valid
workbook; a missing or malformed file fails to open. -/
def openWorkbook (fs : FS) (path : Str) : Option (List (Str × DataFrame)) :=
  match lookupKey path fs with
  | some (FileContent.workbook sheets) => some sheets
  | _ => none

/-- Model of `os.remove(path)` (wrapped in `try/except pass` at the call
site, so removal of a missing file is a no-op). -/
def fsRemove (fs : FS) (path : Str) : FS :=
  fs.filter (fun p => decide (p.1 ≠ path))

/-- Errors surfaced by the embedded Python code. -/
inductive PyErr where
  | nameError
  | openError
deriving DecidableEq

/-- Python truthiness of the optional `sheet_name` attribute: `None` and
the empty string are falsy. -/
def pyTruthy : Option Str → Bool
  | none => false
  | some s => !s.isEmpty

/-- Building the `df_dict` of `XL_READ` by repeated `self[name] = df`
(`__setitem__` writes through to the ordered dict). -/
def loadAll (sheets : List (Str × DataFrame)) : List (Str × DataFrame) :=
  sheets.foldl (fun d p => dictSet d p.1 p.2) []

/-- Embedding of `XL_READ.read_sheets` applied to the sheets of the open
workbook.  When `self.sheet_name` is truthy the branch executes
`self.xl.parse(sheet_name)` where the local variable `sheet_name` is
never assigned in that scope (and no global of that name exists), so the
call raises `NameError` before reading anything.  Otherwise every sheet
is stored in on-disk order. -/
def XL_READ.read_sheets (sheets : List (Str × DataFrame)) (sheet_name : Option Str) :
    Except PyErr (List (Str × DataFrame)) :=
  if pyTruthy sheet_name then Except.error PyErr.nameError
  else Except.ok (loadAll sheets)

/-- Embedding of `read_xl`: open the workbook (propagating open failure)
and read every sheet (`XL_READ` is constructed with `sheet_name=None`). -/
def read_xl (fs : FS) (file : Str) : Except PyErr (List (Str × DataFrame)) :=
  match openWorkbook fs file with
  | none => Except.error PyErr.openError
  | some sheets => XL_READ.read_sheets sheets none

/-- Embedding of `DataFrame.fillna(s)`: replace every missing cell value
of every row by `s`; columns absent from a row are not bindings and are
untouched. -/
def DataFrame.fillna (s : Str) (df : DataFrame) : DataFrame :=
  { cols := df.cols
    rows := df.rows.map (fun r => r.map (fun p => (p.1, some (p.2.getD s)))) }

/-- Reindex one row to a full column list: columns the row does not bind
become missing (`NaN`) cells. -/
def reindexRow (cols : List Str) (r : List (Str × Cell)) : List (Str × Cell) :=
  cols.map (fun c => (c, (lookupKey c r).getD none))

/-- Embedding of `pd.concat([a, b])` along rows with outer join on
columns: the result's columns are those of `a` followed by the fresh
columns of `b`, and every row is reindexed to the combined columns. -/
def pdConcat (a b : DataFrame) : DataFrame :=
  let cols := a.cols ++ b.cols.filter (fun c => decide (c ∉ a.cols))
  { cols := cols
    rows := a.rows.map (reindexRow cols) ++ b.rows.map (reindexRow cols) }

/-- Embedding of `get_merged_DataFrame_of_file`: read the file, then for
each sheet in order set `v = v.fillna("")` and `df = pd.concat([v, df])`
starting from an empty frame. -/
def get_merged_DataFrame_of_file (fs : FS) (file : Str) : Except PyErr DataFrame :=
  match read_xl fs file with
  | Except.error e => Except.error e
  | Except.ok d =>
      Except.ok (d.foldl (fun df p => pdConcat (DataFrame.fillna [] p.2) df) ⟨[], []⟩)

/-- Cell of a DataFrame at row index `i` and column `c`: `none` when the
row does not exist or the row has no binding for `c`; `some none` is a
present but missing (`NaN`) cell. -/
def cellValue (df : DataFrame) (i : Nat) (c : Str) : Option Cell :=
  match df.rows[i]? with
  | none => none
  | some r => lookupKey c r

/-- Cell of the merged DataFrame of a file, when merging succeeds. -/
def mergedCell (fs : FS) (file : Str) (i : Nat) (c : Str) : Option Cell :=
  match get_merged_DataFrame_of_file fs file with
  | Except.ok m => cellValue m i c
  | Except.error _ => none

/-- Embedding of `XL_WRITE.copy_of_file`: split on dots, rejoin all but
the last segment as the base name, keep the last segment as extension,
and insert `" - Copy"` (with `" (n)"` for `n` other than 1) before the
extension. -/
def XL_WRITE.copy_of_file (file : Str) (n : Nat) : Str :=
  let spl_file := pySplitDot file
  let name := pyJoinDot spl_file.dropLast
  let extn := spl_file.getLastD []
  let next_num : Str := if n = 1 then [] else ' ' :: '(' :: (decimal n ++ [')'])
  name ++ (" - Copy".data) ++ next_num ++ '.' :: extn

/-- Candidate path probed at step `k` of the collision loop: the exact
target first, then the `copy_of_file` names for `n = 1, 2, ...`, each
derived from the original target. -/
def candidate (file : Str) : Nat → Str
  | 0 => file
  | Nat.succ n => XL_WRITE.copy_of_file file (n + 1)

/-- Fuel-based embedding of the `while True` loop of
`XL_WRITE.get_valid_file_name`: probe the current candidate by opening
it as a workbook (`XL_READ(file)`); on success increment `n` and move to
the next `copy_of_file` name derived from the original; on open failure
return the current candidate. -/
def get_valid_file_name_fuel (fs : FS) (file_name : Str) : Nat → Str → Nat → Option Str
  | 0, _, _ => none
  | fuel + 1, file, n =>
    match openWorkbook fs file with
    | some _ => get_valid_file_name_fuel fs file_name fuel (XL_WRITE.copy_of_file file_name (n + 1)) (n + 1)
    | none => some file

/-- Embedding of `XL_WRITE.get_valid_file_name`; fuel one more than the
number of files suffices because the probed candidates are pairwise
distinct paths. -/
def XL_WRITE.get_valid_file_name (fs : FS) (file : Str) : Option Str :=
  get_valid_file_name_fuel fs file (fs.length + 1) file 0

/-- Embedding of the per-sheet loop of `XL_WRITE.write`; `ok` models the
external library's acceptance of a sheet name by `to_excel`.  Returns
the sheets actually written in order, together with the names of the
sheets skipped after the truncated retry also failed (each skip prints a
diagnostic in the source). -/
def writeSheets (ok : Str → Bool) : List (Str × DataFrame) → List (Str × DataFrame) × List Str
  | [] => ([], [])
  | (s, df) :: rest =>
    let r := writeSheets ok rest
    if ok s then ((s, df) :: r.1, r.2)
    else if ok (s.take 31) then ((s.take 31, df) :: r.1, r.2)
    else (r.1, s :: r.2)

/-- Embedding of `XL_WRITE.write`: choose the destination (the exact
name when `overwrite`, otherwise the first available candidate), then
create the file there with the sheets the per-sheet loop wrote.  The
claims exercise the default `index=False`, so the index column and its
label are not modelled. -/
def XL_WRITE.write (fs : FS) (ok : Str → Bool) (name : Str)
    (df_dict : List (Str × DataFrame)) (overwrite : Bool) : Option FS :=
  match (if overwrite then some name else XL_WRITE.get_valid_file_name fs name) with
  | none => none
  | some fileName =>
      some (dictSet fs fileName (FileContent.workbook (writeSheets ok df_dict).1))

/-- Embedding of `write_to_xl`: constructs `XL_WRITE`, whose
initializer immediately runs `write`. -/
def write_to_xl (fs : FS) (ok : Str → Bool) (file : Str)
    (df_dict : List (Str × DataFrame)) (overwrite : Bool) : Option FS :=
  XL_WRITE.write fs ok file df_dict overwrite

/-- Embedding of `append_to_xl`: read the existing tables (any failure
is swallowed and leaves the previous collection empty), update them with
the new tables, remove the original file when overwriting (a missing
file is ignored), and rewrite via `write_to_xl`. -/
def append_to_xl (fs : FS) (ok : Str → Bool) (file : Str)
    (df_dict : List (Str × DataFrame)) (overwrite : Bool) : Option FS :=
  let prev_dict := match read_xl fs file with
    | Except.ok d => d
    | Except.error _ => []
  let merged := dictUpdate prev_dict df_dict
  let fs1 := if overwrite then fsRemove fs file else fs
  write_to_xl fs1 ok file merged overwrite

/-- Existing collection seen by `append_to_xl` at a path: the tables
read from the file, or the empty collection when reading fails. -/
def prevOf (fs : FS) (file : Str) : List (Str × DataFrame) :=
  match read_xl fs file with
  | Except.ok d => d
  | Except.error _ => []

/-- Concrete one-column sheet with a single row, used in witnesses. -/
def exampleA : DataFrame := ⟨["x".data], [[("x".data, some ("1".data))]]⟩

/-- Concrete one-column sheet with a single row and a different column. -/
def exampleB : DataFrame := ⟨["y".data], [[("y".data, some ("2".data))]]⟩

/-- Concrete filesystem holding one workbook with the two example sheets. -/
def exampleFS : FS :=
  [("f.xlsx".data, FileContent.workbook [("A".data, exampleA), ("B".data, exampleB)])]

/-- Concrete empty table with column `"x"`, used in witnesses. -/
def tblX : DataFrame := ⟨["x".data], []⟩

/-- Concrete empty table with column `"y"`, used in witnesses. -/
def tblY : DataFrame := ⟨["y".data], []⟩

/-- Concrete filesystem for the append witness: the file already holds
sheets `A` and `B`, both equal to `tblX`. -/
def fsAppend : FS :=
  [("f.xlsx".data, FileContent.workbook [("A".data, tblX), ("B".data, tblX)])]

/-! Basic lemmas about the string helpers. -/

theorem pySplitDot_ne_nil (s : Str) : pySplitDot s ≠ [] := by
  cases s with
  | nil => simp [pySplitDot]
  | cons c rest =>
    simp only [pySplitDot]
    cases h : pySplitDot rest with
    | nil => simp
    | cons a t => by_cases hc : c = '.' <;> simp [hc]

theorem pySplitDot_no_dot (s : Str) (h : '.' ∉ s) : pySplitDot s = [s] := by
  induction s with
  | nil => rfl
  | cons c rest ih =>
    have hc : ¬ c = '.' := fun e => h (by rw [e]; exact List.mem_cons_self _ _)
    have hr : '.' ∉ rest := fun m => h (List.mem_cons_of_mem c m)
    simp [pySplitDot, ih hr, hc]

theorem pyJoinDot_cons_cons (c : Char) (h : Str) (t : List Str) :
    pyJoinDot ((c :: h) :: t) = c :: pyJoinDot (h :: t) := by
  cases t with
  | nil => rfl
  | cons a t' => rfl

theorem pyJoinDot_pySplitDot (s : Str) : pyJoinDot (pySplitDot s) = s := by
  induction s with
  | nil => rfl
  | cons c rest ih =>
    simp only [pySplitDot]
    cases h : pySplitDot rest with
    | nil => exact absurd h (pySplitDot_ne_nil rest)
    | cons a t =>
      rw [h] at ih
      by_cases hc : c = '.'
      · subst hc
        simpa [pyJoinDot] using ih
      · simp only [if_neg hc, pyJoinDot_cons_cons, ih]

theorem pyJoinDot_cons_of_ne_nil (s : Str) (rest : List Str) (h : rest ≠ []) :
    pyJoinDot (s :: rest) = s ++ '.' :: pyJoinDot rest := by
  cases rest with
  | nil => exact absurd rfl h
  | cons r rest' => rfl

theorem pyJoinDot_length_le : ∀ (l : List Str), l ≠ [] →
    (pyJoinDot l).length ≤ (pyJoinDot l.dropLast).length + 1 + (l.getLastD []).length
  | [], h => absurd rfl h
  | [s], _ => by simp [pyJoinDot]
  | s :: r :: rest, _ => by
    have ih := pyJoinDot_length_le (r :: rest) (by simp)
    rw [pyJoinDot_cons_of_ne_nil s (r :: rest) (by simp),
      List.dropLast_cons_of_ne_nil (by simp : r :: rest ≠ ([] : List Str))]
    cases hd : (r :: rest).dropLast with
    | nil =>
      have hre : rest = [] := by
        cases rest with
        | nil => rfl
        | cons x xs => simp [List.dropLast_cons_of_ne_nil] at hd
      subst hre
      simp [pyJoinDot]
      omega
    | cons d ds =>
      rw [pyJoinDot_cons_of_ne_nil s (d :: ds) (by simp)]
      rw [hd] at ih
      have hlast : (s :: r :: rest).getLastD [] = (r :: rest).getLastD [] := by
        simp [List.getLastD_cons]
      rw [hlast]
      simp only [List.length_append, List.length_cons] at ih ⊢
      omega

theorem digitChar_inj_lt : ∀ a < 10, ∀ b < 10, Nat.digitChar a = Nat.digitChar b → a = b := by
  decide

theorem decimalAux_eq (f a : Nat) (h : a ≤ f) :
    decimalAux f a = if a < 10 then [Nat.digitChar a]
      else decimalAux (f - 1) (a / 10) ++ [Nat.digitChar (a % 10)] := by
  cases f with
  | zero =>
    have : a = 0 := Nat.le_zero.mp h
    subst this
    simp [decimalAux]
  | succ f' => rfl

theorem decimalAux_ne_nil (f a : Nat) (h : a ≤ f) : decimalAux f a ≠ [] := by
  rw [decimalAux_eq f a h]
  by_cases ha : a < 10 <;> simp [ha]

theorem decimalAux_inj (a : Nat) : ∀ (f₁ f₂ b : Nat), a ≤ f₁ → b ≤ f₂ →
    decimalAux f₁ a = decimalAux f₂ b → a = b := by
  induction a using Nat.strong_induction_on with
  | _ a ih =>
    intro f₁ f₂ b h₁ h₂ heq
    rw [decimalAux_eq f₁ a h₁, decimalAux_eq f₂ b h₂] at heq
    by_cases ha : a < 10 <;> by_cases hb : b < 10
    · rw [if_pos ha, if_pos hb] at heq
      have hc : Nat.digitChar a = Nat.digitChar b := by simpa using heq
      exact digitChar_inj_lt a ha b hb hc
    · exfalso
      rw [if_pos ha, if_neg hb] at heq
      have hbne : decimalAux (f₂ - 1) (b / 10) ≠ [] := by
        apply decimalAux_ne_nil
        have : b / 10 < b := Nat.div_lt_self (by omega) (by omega)
        omega
      cases hcc : decimalAux (f₂ - 1) (b / 10) with
      | nil => exact hbne hcc
      | cons x xs =>
        rw [hcc] at heq
        have := congrArg List.length heq
        simp only [List.length_append, List.length_cons, List.length_nil] at this
        omega
    · exfalso
      rw [if_neg ha, if_pos hb] at heq
      have hane : decimalAux (f₁ - 1) (a / 10) ≠ [] := by
        apply decimalAux_ne_nil
        have : a / 10 < a := Nat.div_lt_self (by omega) (by omega)
        omega
      cases hcc : decimalAux (f₁ - 1) (a / 10) with
      | nil => exact hane hcc
      | cons x xs =>
        rw [hcc] at heq
        have := congrArg List.length heq
        simp only [List.length_append, List.length_cons, List.length_nil] at this
        omega
    · rw [if_neg ha, if_neg hb] at heq
      have hlen : ([Nat.digitChar (a % 10)] : Str).length = ([Nat.digitChar (b % 10)] : Str).length := rfl
      obtain ⟨hpre, hsuf⟩ := List.append_inj' heq hlen
      have hmod : a % 10 = b % 10 := by
        have hd : Nat.digitChar (a % 10) = Nat.digitChar (b % 10) := by simpa using hsuf
        exact digitChar_inj_lt _ (Nat.mod_lt a (by omega)) _ (Nat.mod_lt b (by omega)) hd
      have hdiva : a / 10 < a := Nat.div_lt_self (by omega) (by omega)
      have hdiv : a / 10 = b / 10 := by
        apply ih (a / 10) hdiva (f₁ - 1) (f₂ - 1) (b / 10) (by omega)
        · have : b / 10 < b := Nat.div_lt_self (by omega) (by omega)
          omega
        · exact hpre
      omega

theorem decimal_inj (a b : Nat) (h : decimal a = decimal b) : a = b :=
  decimalAux_inj a a b b (Nat.le_refl a) (Nat.le_refl b) h

/-! Lemmas about the ordered-dictionary model. -/

theorem lookupKey_nil {α : Type} (k : Str) : lookupKey k ([] : List (Str × α)) = none := rfl

theorem lookupKey_cons {α : Type} (k k₁ : Str) (v₁ : α) (rest : List (Str × α)) :
    lookupKey k ((k₁, v₁) :: rest) = if k = k₁ then some v₁ else lookupKey k rest := rfl

theorem keys_nil {α : Type} : keys ([] : List (Str × α)) = [] := rfl

theorem keys_cons {α : Type} (p : Str × α) (rest : List (Str × α)) :
    keys (p :: rest) = p.1 :: keys rest := rfl

theorem keys_append {α : Type} (d d' : List (Str × α)) :
    keys (d ++ d') = keys d ++ keys d' := by
  simp [keys]

theorem substKV_eq {α : Type} (k : Str) (v : α) (k₁ : Str) (v₁ : α) (h : k₁ = k) :
    substKV k v (k₁, v₁) = (k, v) := by
  simp [substKV, h]

theorem substKV_ne {α : Type} (k : Str) (v : α) (k₁ : Str) (v₁ : α) (h : k₁ ≠ k) :
    substKV k v (k₁, v₁) = (k₁, v₁) := by
  simp [substKV, h]

theorem lookupKey_eq_none_iff {α : Type} (d : List (Str × α)) (k : Str) :
    lookupKey k d = none ↔ k ∉ keys d := by
  induction d with
  | nil => simp [lookupKey_nil, keys_nil]
  | cons p rest ih =>
    obtain ⟨k₁, v₁⟩ := p
    rw [lookupKey_cons, keys_cons]
    by_cases h : k = k₁
    · simp [h]
    · simp [h, ih]

theorem containsKey_eq_false_iff {α : Type} (d : List (Str × α)) (k : Str) :
    containsKey d k = false ↔ k ∉ keys d := by
  show (lookupKey k d).isSome = false ↔ _
  rw [← lookupKey_eq_none_iff]
  cases lookupKey k d <;> simp

theorem containsKey_eq_true_iff {α : Type} (d : List (Str × α)) (k : Str) :
    containsKey d k = true ↔ k ∈ keys d := by
  induction d with
  | nil => simp [containsKey, lookupKey_nil, keys_nil]
  | cons p rest ih =>
    obtain ⟨k₁, v₁⟩ := p
    show (lookupKey k ((k₁, v₁) :: rest)).isSome = true ↔ _
    rw [lookupKey_cons, keys_cons]
    by_cases h : k = k₁
    · simp [h]
    · simp only [if_neg h, List.mem_cons]
      rw [show (lookupKey k rest).isSome = containsKey rest k from rfl, ih]
      simp [h]

theorem lookupKey_append_of_none {α : Type} (d d' : List (Str × α)) (k : Str) :
    lookupKey k d = none → lookupKey k (d ++ d') = lookupKey k d' := by
  induction d with
  | nil => intro _; rfl
  | cons p rest ih =>
    intro h
    obtain ⟨k₁, v₁⟩ := p
    rw [lookupKey_cons] at h
    by_cases hk : k = k₁
    · rw [if_pos hk] at h
      exact Option.noConfusion h
    · rw [if_neg hk] at h
      rw [List.cons_append, lookupKey_cons, if_neg hk]
      exact ih h

theorem lookupKey_append_of_some {α : Type} (d d' : List (Str × α)) (k : Str) (v : α) :
    lookupKey k d = some v → lookupKey k (d ++ d') = some v := by
  induction d with
  | nil => intro h; exact Option.noConfusion h
  | cons p rest ih =>
    intro h
    obtain ⟨k₁, v₁⟩ := p
    rw [lookupKey_cons] at h
    rw [List.cons_append, lookupKey_cons]
    by_cases hk : k = k₁
    · rw [if_pos hk] at h
      rw [if_pos hk]
      exact h
    · rw [if_neg hk] at h
      rw [if_neg hk]
      exact ih h

theorem dictSet_eq_of_contains {α : Type} (d : List (Str × α)) (k : Str) (v : α)
    (h : containsKey d k = true) : dictSet d k v = d.map (substKV k v) := by
  unfold dictSet
  rw [if_pos h]

theorem dictSet_eq_of_not_contains {α : Type} (d : List (Str × α)) (k : Str) (v : α)
    (h : containsKey d k = false) : dictSet d k v = d ++ [(k, v)] := by
  unfold dictSet
  rw [if_neg (by rw [h]; exact Bool.false_ne_true)]

theorem lookupKey_map_subst_self {α : Type} (d : List (Str × α)) (k : Str) (v : α) :
    containsKey d k = true → lookupKey k (d.map (substKV k v)) = some v := by
  induction d with
  | nil => intro h; simp [containsKey, lookupKey_nil] at h
  | cons p rest ih =>
    intro h
    obtain ⟨k₁, v₁⟩ := p
    rw [List.map_cons]
    by_cases hk : k₁ = k
    · rw [substKV_eq _ _ _ _ hk, lookupKey_cons, if_pos rfl]
    · have hkk : ¬ k = k₁ := fun e => hk e.symm
      have h' : containsKey rest k = true := by
        have : (lookupKey k ((k₁, v₁) :: rest)).isSome = true := h
        rw [lookupKey_cons, if_neg hkk] at this
        exact this
      rw [substKV_ne _ _ _ _ hk, lookupKey_cons, if_neg hkk]
      exact ih h'

theorem lookupKey_map_subst_ne {α : Type} (d : List (Str × α)) (k k' : Str) (v : α)
    (h : k' ≠ k) : lookupKey k' (d.map (substKV k v)) = lookupKey k' d := by
  induction d with
  | nil => rfl
  | cons p rest ih =>
    obtain ⟨k₁, v₁⟩ := p
    rw [List.map_cons]
    by_cases hk : k₁ = k
    · rw [substKV_eq _ _ _ _ hk, lookupKey_cons, lookupKey_cons, if_neg h,
        if_neg (by rw [hk]; exact h)]
      exact ih
    · rw [substKV_ne _ _ _ _ hk, lookupKey_cons, lookupKey_cons]
      by_cases hk' : k' = k₁
      · rw [if_pos hk', if_pos hk']
      · rw [if_neg hk', if_neg hk']
        exact ih

theorem keys_map_subst {α : Type} (d : List (Str × α)) (k : Str) (v : α) :
    keys (d.map (substKV k v)) = keys d := by
  induction d with
  | nil => rfl
  | cons p rest ih =>
    obtain ⟨k₁, v₁⟩ := p
    rw [List.map_cons, keys_cons, keys_cons, ih]
    by_cases hk : k₁ = k
    · rw [substKV_eq _ _ _ _ hk, hk]
    · rw [substKV_ne _ _ _ _ hk]

theorem lookupKey_dictSet_self {α : Type} (d : List (Str × α)) (k : Str) (v : α) :
    lookupKey k (dictSet d k v) = some v := by
  cases hc : containsKey d k with
  | true =>
    rw [dictSet_eq_of_contains d k v hc]
    exact lookupKey_map_subst_self d k v hc
  | false =>
    rw [dictSet_eq_of_not_contains d k v hc]
    have hn : lookupKey k d = none := by
      rw [lookupKey_eq_none_iff]
      exact (containsKey_eq_false_iff d k).mp hc
    rw [lookupKey_append_of_none _ _ _ hn, lookupKey_cons, if_pos rfl]

theorem lookupKey_dictSet_ne {α : Type} (d : List (Str × α)) (k k' : Str) (v : α)
    (h : k' ≠ k) : lookupKey k' (dictSet d k v) = lookupKey k' d := by
  cases hc : containsKey d k with
  | true =>
    rw [dictSet_eq_of_contains d k v hc]
    exact lookupKey_map_subst_ne d k k' v h
  | false =>
    rw [dictSet_eq_of_not_contains d k v hc]
    cases hl : lookupKey k' d with
    | some w => exact lookupKey_append_of_some _ _ _ _ hl
    | none =>
      rw [lookupKey_append_of_none _ _ _ hl, lookupKey_cons, if_neg h, lookupKey_nil]

theorem keys_dictSet {α : Type} (d : List (Str × α)) (k : Str) (v : α) :
    keys (dictSet d k v) = if containsKey d k then keys d else keys d ++ [k] := by
  cases hc : containsKey d k with
  | true =>
    rw [dictSet_eq_of_contains d k v hc, if_pos rfl]
    exact keys_map_subst d k v
  | false =>
    rw [dictSet_eq_of_not_contains d k v hc, if_neg (by exact Bool.false_ne_true),
      keys_append, keys_cons, keys_nil]

theorem keys_dictSet_nodup {α : Type} (d : List (Str × α)) (k : Str) (v : α)
    (h : (keys d).Nodup) : (keys (dictSet d k v)).Nodup := by
  rw [keys_dictSet]
  cases hc : containsKey d k with
  | true => rw [if_pos rfl]; exact h
  | false =>
    rw [if_neg (by exact Bool.false_ne_true)]
    have hk : k ∉ keys d := (containsKey_eq_false_iff d k).mp hc
    rw [(List.perm_append_singleton k (keys d)).nodup_iff]
    exact List.nodup_cons.mpr ⟨hk, h⟩

theorem filter_eq_length_one_of_nodup (l : List Str) (k : Str) (hnd : l.Nodup)
    (hm : k ∈ l) : (l.filter (fun x => decide (x = k))).length = 1 := by
  induction l with
  | nil => cases hm
  | cons a rest ih =>
    obtain ⟨hna, hnr⟩ := List.nodup_cons.mp hnd
    by_cases ha : a = k
    · have hkr : ∀ x ∈ rest, ¬ (decide (x = k) = true) := by
        intro x hx
        simp only [decide_eq_true_eq]
        intro e
        exact hna (by rw [ha, ← e]; exact hx)
      rw [List.filter_cons_of_pos (by simp [ha]), List.filter_eq_nil_iff.mpr hkr]
      rfl
    · have hm' : k ∈ rest := by
        rcases List.mem_cons.mp hm with h | h
        · exact absurd h.symm ha
        · exact h
      rw [List.filter_cons_of_neg (by simp [ha])]
      exact ih hnr hm'

theorem filter_eq_length_zero_of_not_mem (l : List Str) (k : Str) (hm : k ∉ l) :
    (l.filter (fun x => decide (x = k))).length = 0 := by
  rw [List.filter_eq_nil_iff.mpr]
  · rfl
  · intro x hx
    simp only [decide_eq_true_eq]
    intro e
    exact hm (e ▸ hx)

theorem countKey_dictSet_self {α : Type} (d : List (Str × α)) (k : Str) (v : α)
    (h : (keys d).Nodup) : countKey (dictSet d k v) k = 1 := by
  unfold countKey
  rw [keys_dictSet]
  cases hc : containsKey d k with
  | true =>
    rw [if_pos rfl]
    exact filter_eq_length_one_of_nodup _ _ h ((containsKey_eq_true_iff d k).mp hc)
  | false =>
    rw [if_neg (by exact Bool.false_ne_true)]
    have hk : k ∉ keys d := (containsKey_eq_false_iff d k).mp hc
    rw [List.filter_append, List.length_append,
      filter_eq_length_zero_of_not_mem _ _ hk]
    simp

theorem mem_dictSet_key_eq {α : Type} (d : List (Str × α)) (k : Str) (v : α)
    (p : Str × α) (hp : p ∈ dictSet d k v) (hk : p.1 = k) : p = (k, v) := by
  cases hc : containsKey d k with
  | true =>
    rw [dictSet_eq_of_contains d k v hc] at hp
    obtain ⟨q, hq, hpq⟩ := List.mem_map.mp hp
    by_cases hq1 : q.1 = k
    · rw [← hpq]
      simp [substKV, hq1]
    · rw [← hpq] at hk
      rw [substKV, if_neg hq1] at hk
      exact absurd hk hq1
  | false =>
    rw [dictSet_eq_of_not_contains d k v hc] at hp
    rcases List.mem_append.mp hp with hmem | hmem
    · exfalso
      have : k ∈ keys d := by
        rw [← hk]
        exact List.mem_map_of_mem Prod.fst hmem
      exact (containsKey_eq_false_iff d k).mp hc this
    · simpa using hmem

theorem dictSet_idem {α : Type} (d : List (Str × α)) (k : Str) (v : α) :
    dictSet (dictSet d k v) k v = dictSet d k v := by
  have hc2 : containsKey (dictSet d k v) k = true := by
    show (lookupKey k (dictSet d k v)).isSome = true
    rw [lookupKey_dictSet_self]
    rfl
  rw [dictSet_eq_of_contains _ k v hc2]
  have : ∀ p ∈ dictSet d k v, substKV k v p = p := by
    intro p hp
    by_cases hk : p.1 = k
    · rw [mem_dictSet_key_eq d k v p hp hk]
      simp [substKV]
    · rw [substKV, if_neg hk]
  calc (dictSet d k v).map (substKV k v)
      = (dictSet d k v).map id := List.map_congr_left this
    _ = dictSet d k v := List.map_id _

theorem dictUpdate_cons {α : Type} (old : List (Str × α)) (k : Str) (v : α)
    (rest : List (Str × α)) :
    dictUpdate old ((k, v) :: rest) = dictUpdate (dictSet old k v) rest := rfl

theorem lookupKey_dictUpdate_not_mem {α : Type} (new : List (Str × α)) :
    ∀ (old : List (Str × α)) (k : Str), containsKey new k = false →
      lookupKey k (dictUpdate old new) = lookupKey k old := by
  induction new with
  | nil => intro old k _; rfl
  | cons p rest ih =>
    intro old k h
    obtain ⟨k₁, v₁⟩ := p
    have hh : ¬ k = k₁ ∧ k ∉ keys rest := by
      have := (containsKey_eq_false_iff _ k).mp h
      rw [keys_cons] at this
      simpa using this
    have hr : containsKey rest k = false := (containsKey_eq_false_iff _ k).mpr hh.2
    rw [dictUpdate_cons, ih _ k hr, lookupKey_dictSet_ne _ _ _ _ hh.1]

theorem lookupKey_dictUpdate_mem {α : Type} (new : List (Str × α)) :
    ∀ (old : List (Str × α)) (k : Str), (keys new).Nodup → containsKey new k = true →
      lookupKey k (dictUpdate old new) = lookupKey k new := by
  induction new with
  | nil => intro old k _ h; simp [containsKey, lookupKey_nil] at h
  | cons p rest ih =>
    intro old k hnd h
    obtain ⟨k₁, v₁⟩ := p
    have hnd' := List.nodup_cons.mp (by rw [keys_cons] at hnd; exact hnd)
    rw [dictUpdate_cons]
    by_cases hk : k = k₁
    · have hkr : containsKey rest k = false := by
        rw [containsKey_eq_false_iff, hk]
        exact hnd'.1
      rw [lookupKey_dictUpdate_not_mem rest _ k hkr, hk, lookupKey_dictSet_self,
        lookupKey_cons, if_pos rfl]
    · have hcr : containsKey rest k = true := by
        have : (lookupKey k ((k₁, v₁) :: rest)).isSome = true := h
        rw [lookupKey_cons, if_neg hk] at this
        exact this
      rw [ih _ k hnd'.2 hcr, lookupKey_cons, if_neg hk]

theorem foldl_dictSet_append {α : Type} (sheets : List (Str × α)) :
    ∀ (d : List (Str × α)), (keys (d ++ sheets)).Nodup →
      sheets.foldl (fun acc p => dictSet acc p.1 p.2) d = d ++ sheets := by
  induction sheets with
  | nil => intro d _; simp
  | cons p rest ih =>
    intro d hnd
    obtain ⟨k, v⟩ := p
    have hkd : k ∉ keys d := by
      rw [keys_append, keys_cons] at hnd
      have hdisj := (List.nodup_append.mp hnd).2.2
      intro hm
      exact hdisj hm (List.mem_cons_self _ _)
    have hstep : dictSet d k v = d ++ [(k, v)] := by
      apply dictSet_eq_of_not_contains
      exact (containsKey_eq_false_iff d k).mpr hkd
    rw [List.foldl_cons, hstep, ih (d ++ [(k, v)]) (by simpa using hnd)]
    simp

theorem loadAll_eq_self (sheets : List (Str × DataFrame))
    (h : (keys sheets).Nodup) : loadAll sheets = sheets := by
  unfold loadAll
  rw [foldl_dictSet_append sheets [] (by simpa using h)]
  simp

theorem writeSheets_all_ok (ok : Str → Bool) (l : List (Str × DataFrame))
    (h : ∀ p ∈ l, ok p.1 = true) : (writeSheets ok l).1 = l := by
  induction l with
  | nil => rfl
  | cons p rest ih =>
    obtain ⟨s, df⟩ := p
    have hs : ok s = true := h (s, df) (List.mem_cons_self _ _)
    have hr : ∀ p ∈ rest, ok p.1 = true := fun p hp => h p (List.mem_cons_of_mem _ hp)
    simp [writeSheets, hs, ih hr]

/-! Lemmas about the probe loop's fuel recursion. -/

theorem get_valid_file_name_fuel_stop (fs : FS) (file_name file : Str) (fuel n : Nat)
    (h : openWorkbook fs file = none) :
    get_valid_file_name_fuel fs file_name (fuel + 1) file n = some file := by
  unfold get_valid_file_name_fuel
  rw [h]

theorem get_valid_file_name_fuel_step (fs : FS) (file_name file : Str) (fuel n : Nat)
    (w : List (Str × DataFrame)) (h : openWorkbook fs file = some w) :
    get_valid_file_name_fuel fs file_name (fuel + 1) file n
      = get_valid_file_name_fuel fs file_name fuel
          (XL_WRITE.copy_of_file file_name (n + 1)) (n + 1) := by
  conv_lhs => unfold get_valid_file_name_fuel
  rw [h]

/-! Claim theorems. -/

/-- C3 (code_bug): for every workbook, constructing `XL_READ` with a
specific (non-empty) `sheet_name` and calling `read_sheets` does not
load that sheet without error: the taken branch evaluates
`self.xl.parse(sheet_name)` where the local `sheet_name` is unassigned,
so the call raises `NameError` instead of loading the sheet. -/
theorem read_sheets_specific_sheet_raises (sheets : List (Str × DataFrame)) (s : Str)
    (h : s ≠ []) :
    XL_READ.read_sheets sheets (some s) = Except.error PyErr.nameError := by
  cases s with
  | nil => exact absurd rfl h
  | cons c rest => rfl

/-- Witness: the `NameError` behaviour at a concrete workbook and sheet name. -/
theorem read_sheets_specific_sheet_raises_witness :
    XL_READ.read_sheets [("Sheet1".data, exampleA)] (some ("Sheet1".data))
      = Except.error PyErr.nameError :=
  read_sheets_specific_sheet_raises [("Sheet1".data, exampleA)] ("Sheet1".data) (by decide)

/-- C4 (confirmed): the per-sheet write loop writes each sheet under its
full name when accepted; when rejected it retries exactly once with the
name truncated to 31 characters; when the retry is also rejected the
sheet is skipped and reported while the remaining sheets are still
processed — no sheet aborts the whole write and no sheet is tried more
than twice. -/
theorem write_sheet_truncate_retry_once (ok : Str → Bool) (l : List (Str × DataFrame)) :
    (writeSheets ok l).1 = l.filterMap (fun p =>
        if ok p.1 then some p
        else if ok (p.1.take 31) then some (p.1.take 31, p.2) else none)
    ∧ (writeSheets ok l).2
        = (l.filter (fun p => !ok p.1 && !ok (p.1.take 31))).map Prod.fst := by
  induction l with
  | nil => exact ⟨rfl, rfl⟩
  | cons p rest ih =>
    obtain ⟨s, df⟩ := p
    cases h1 : ok s <;> cases h2 : ok (s.take 31) <;>
      simp [writeSheets, List.filterMap_cons, List.filter_cons, h1, h2, ih.1, ih.2]

/-- C9 (confirmed): the sheet collection keeps unique keys and preserves
insertion order: assignment keeps existing positions (a new key is
appended at the end), lookup returns the assigned table, other keys are
untouched, and loading sheets with distinct names yields exactly the
sheets in load order. -/
theorem collection_unique_keys_ordered (d : List (Str × DataFrame)) (k k' : Str)
    (v : DataFrame) (sheets : List (Str × DataFrame))
    (hd : (keys d).Nodup) (hs : (keys sheets).Nodup) (hne : k' ≠ k) :
    (keys (dictSet d k v)).Nodup
    ∧ keys (dictSet d k v) = (if containsKey d k then keys d else keys d ++ [k])
    ∧ lookupKey k (dictSet d k v) = some v
    ∧ lookupKey k' (dictSet d k v) = lookupKey k' d
    ∧ loadAll sheets = sheets :=
  ⟨keys_dictSet_nodup d k v hd, keys_dictSet d k v, lookupKey_dictSet_self d k v,
    lookupKey_dictSet_ne d k k' v hne, loadAll_eq_self sheets hs⟩

/-- Witness: the collection invariants at a concrete collection. -/
theorem collection_unique_keys_ordered_witness :
    (keys (dictSet [("A".data, tblX)] ("B".data) tblY)).Nodup
    ∧ keys (dictSet [("A".data, tblX)] ("B".data) tblY)
        = (if containsKey [("A".data, tblX)] ("B".data) then keys [("A".data, tblX)]
           else keys [("A".data, tblX)] ++ ["B".data])
    ∧ lookupKey ("B".data) (dictSet [("A".data, tblX)] ("B".data) tblY) = some tblY
    ∧ lookupKey ("A".data) (dictSet [("A".data, tblX)] ("B".data) tblY)
        = lookupKey ("A".data) [("A".data, tblX)]
    ∧ loadAll [("A".data, tblX)] = [("A".data, tblX)] :=
  collection_unique_keys_ordered [("A".data, tblX)] ("B".data) ("A".data) tblY
    [("A".data, tblX)] (by decide) (by decide) (by decide)

/-- C6 (confirmed): with `overwrite=true` the writer writes to exactly
the given path for every filesystem (so no probing and never a
`" - Copy"` name), the result holds a single file at that path, and
writing the same content again over the result produces the same
filesystem. -/
theorem overwrite_writes_exact_path (fs : FS) (ok : Str → Bool) (name : Str)
    (d : List (Str × DataFrame)) (hnd : (keys fs).Nodup) :
    write_to_xl fs ok name d true
      = some (dictSet fs name (FileContent.workbook (writeSheets ok d).1))
    ∧ countKey (dictSet fs name (FileContent.workbook (writeSheets ok d).1)) name = 1
    ∧ write_to_xl (dictSet fs name (FileContent.workbook (writeSheets ok d).1)) ok name d true
      = some (dictSet fs name (FileContent.workbook (writeSheets ok d).1)) := by
  refine ⟨rfl, countKey_dictSet_self _ _ _ hnd, ?_⟩
  show some (dictSet (dictSet fs name (FileContent.workbook (writeSheets ok d).1)) name
    (FileContent.workbook (writeSheets ok d).1)) = _
  rw [dictSet_idem]

/-- Witness: exact-path overwrite at a concrete filesystem and content. -/
theorem overwrite_writes_exact_path_witness :
    write_to_xl [] (fun _ => true) ("out.xlsx".data) [("A".data, tblX)] true
      = some (dictSet [] ("out.xlsx".data)
          (FileContent.workbook (writeSheets (fun _ => true) [("A".data, tblX)]).1))
    ∧ countKey (dictSet [] ("out.xlsx".data)
          (FileContent.workbook (writeSheets (fun _ => true) [("A".data, tblX)]).1))
        ("out.xlsx".data) = 1
    ∧ write_to_xl (dictSet [] ("out.xlsx".data)
          (FileContent.workbook (writeSheets (fun _ => true) [("A".data, tblX)]).1))
        (fun _ => true) ("out.xlsx".data) [("A".data, tblX)] true
      = some (dictSet [] ("out.xlsx".data)
          (FileContent.workbook (writeSheets (fun _ => true) [("A".data, tblX)]).1)) :=
  overwrite_writes_exact_path [] (fun _ => true) ("out.xlsx".data) [("A".data, tblX)]
    (by decide)

/-- C8 (confirmed): writing a collection whose sheet names are all
accepted by the library (the model of the 31-character and legal-name
constraints) and pairwise distinct to a fresh path stores exactly the
collection, and reading it back returns exactly the original tables. -/
theorem write_read_round_trip (fs : FS) (ok : Str → Bool) (file : Str)
    (d : List (Str × DataFrame)) (hfresh : openWorkbook fs file = none)
    (hok : ∀ p ∈ d, ok p.1 = true) (hnd : (keys d).Nodup) :
    write_to_xl fs ok file d false = some (dictSet fs file (FileContent.workbook d))
    ∧ read_xl (dictSet fs file (FileContent.workbook d)) file = Except.ok d := by
  have hname : XL_WRITE.get_valid_file_name fs file = some file := by
    unfold XL_WRITE.get_valid_file_name
    exact get_valid_file_name_fuel_stop fs file file fs.length 0 hfresh
  constructor
  · show XL_WRITE.write fs ok file d false = _
    unfold XL_WRITE.write
    rw [hname]
    rw [writeSheets_all_ok ok d hok]
    rfl
  · have hlook : lookupKey file (dictSet fs file (FileContent.workbook d))
        = some (FileContent.workbook d) := lookupKey_dictSet_self fs file _
    unfold read_xl openWorkbook
    rw [hlook]
    show XL_READ.read_sheets d none = Except.ok d
    unfold XL_READ.read_sheets
    rw [loadAll_eq_self d hnd]
    rfl

/-- Witness: the round trip at a concrete fresh path and collection. -/
theorem write_read_round_trip_witness :
    write_to_xl [] (fun _ => true) ("new.xlsx".data) [("A".data, tblX)] false
      = some (dictSet [] ("new.xlsx".data) (FileContent.workbook [("A".data, tblX)]))
    ∧ read_xl (dictSet [] ("new.xlsx".data) (FileContent.workbook [("A".data, tblX)]))
        ("new.xlsx".data) = Except.ok [("A".data, tblX)] :=
  write_read_round_trip [] (fun _ => true) ("new.xlsx".data) [("A".data, tblX)]
    (by decide) (by decide) (by decide)

/-- C5 (confirmed): `append_to_xl` (overwrite mode, its default) merges
the new tables into the tables currently stored at the path and rewrites
the file with the merged collection: a new table replaces the same-named
existing one, every other existing table is preserved unchanged, the
call returns without surfacing an error, and a path that is missing or
fails to open is treated as holding the empty collection. -/
theorem append_updates_and_rewrites (fs : FS) (ok : Str → Bool) (file : Str)
    (new : List (Str × DataFrame))
    (hok : ∀ p ∈ dictUpdate (prevOf fs file) new, ok p.1 = true)
    (hnew : (keys new).Nodup) :
    append_to_xl fs ok file new true
      = some (dictSet (fsRemove fs file) file
          (FileContent.workbook (dictUpdate (prevOf fs file) new)))
    ∧ openWorkbook (dictSet (fsRemove fs file) file
          (FileContent.workbook (dictUpdate (prevOf fs file) new))) file
      = some (dictUpdate (prevOf fs file) new)
    ∧ (∀ k, containsKey new k = false →
        lookupKey k (dictUpdate (prevOf fs file) new) = lookupKey k (prevOf fs file))
    ∧ (∀ k, containsKey new k = true →
        lookupKey k (dictUpdate (prevOf fs file) new) = lookupKey k new)
    ∧ (openWorkbook fs file = none → prevOf fs file = []) := by
  refine ⟨?_, ?_, fun k hk => lookupKey_dictUpdate_not_mem new _ k hk,
    fun k hk => lookupKey_dictUpdate_mem new _ k hnew hk, ?_⟩
  · show some (dictSet (fsRemove fs file) file
        (FileContent.workbook (writeSheets ok (dictUpdate (prevOf fs file) new)).1)) = _
    rw [writeSheets_all_ok ok _ hok]
  · unfold openWorkbook
    rw [lookupKey_dictSet_self]
  · intro hn
    unfold prevOf read_xl
    rw [hn]

/-- Witness: appending a replacement for sheet `B` to a concrete file
holding sheets `A` and `B`. -/
theorem append_updates_and_rewrites_witness :
    append_to_xl fsAppend (fun _ => true) ("f.xlsx".data) [("B".data, tblY)] true
      = some (dictSet (fsRemove fsAppend ("f.xlsx".data)) ("f.xlsx".data)
          (FileContent.workbook (dictUpdate (prevOf fsAppend ("f.xlsx".data))
            [("B".data, tblY)])))
    ∧ openWorkbook (dictSet (fsRemove fsAppend ("f.xlsx".data)) ("f.xlsx".data)
          (FileContent.workbook (dictUpdate (prevOf fsAppend ("f.xlsx".data))
            [("B".data, tblY)]))) ("f.xlsx".data)
      = some (dictUpdate (prevOf fsAppend ("f.xlsx".data)) [("B".data, tblY)])
    ∧ (∀ k, containsKey [("B".data, tblY)] k = false →
        lookupKey k (dictUpdate (prevOf fsAppend ("f.xlsx".data)) [("B".data, tblY)])
          = lookupKey k (prevOf fsAppend ("f.xlsx".data)))
    ∧ (∀ k, containsKey [("B".data, tblY)] k = true →
        lookupKey k (dictUpdate (prevOf fsAppend ("f.xlsx".data)) [("B".data, tblY)])
          = lookupKey k [("B".data, tblY)])
    ∧ (openWorkbook fsAppend ("f.xlsx".data) = none
        → prevOf fsAppend ("f.xlsx".data) = []) :=
  append_updates_and_rewrites fsAppend (fun _ => true) ("f.xlsx".data)
    [("B".data, tblY)] (by decide) (by decide)

/-- C10 (confirmed): on a colliding file name containing no dot, the
split leaves an empty base name and the entire name as the extension, so
the candidate is the copy suffix followed by a dot and the whole
original name, instead of the name followed by the suffix. -/
theorem copy_of_file_no_dot (file : Str) (n : Nat) (h : '.' ∉ file) :
    XL_WRITE.copy_of_file file n
      = (" - Copy".data) ++ (if n = 1 then [] else ' ' :: '(' :: (decimal n ++ [')']))
        ++ '.' :: file := by
  unfold XL_WRITE.copy_of_file
  rw [pySplitDot_no_dot file h]
  rfl

/-- Witness: the dot-free name `"data"` collides into `" - Copy.data"`. -/
theorem copy_of_file_no_dot_witness :
    XL_WRITE.copy_of_file ("data".data) 1
      = (" - Copy".data) ++ (if 1 = 1 then [] else ' ' :: '(' :: (decimal 1 ++ [')']))
        ++ '.' :: ("data".data) :=
  copy_of_file_no_dot ("data".data) 1 (by decide)

/-! Lemmas about concatenation of DataFrames. -/

theorem pdConcat_cols (x y : DataFrame) :
    (pdConcat x y).cols = x.cols ++ y.cols.filter (fun t => decide (t ∉ x.cols)) := rfl

theorem pdConcat_rows (x y : DataFrame) :
    (pdConcat x y).rows = x.rows.map (reindexRow (pdConcat x y).cols)
      ++ y.rows.map (reindexRow (pdConcat x y).cols) := rfl

theorem fillna_cols (s : Str) (df : DataFrame) : (DataFrame.fillna s df).cols = df.cols := rfl

theorem fillna_rows_length (s : Str) (df : DataFrame) :
    (DataFrame.fillna s df).rows.length = df.rows.length := by
  simp [DataFrame.fillna]

theorem lookupKey_reindexRow (cols : List Str) (r : List (Str × Cell)) (c : Str) :
    lookupKey c (reindexRow cols r)
      = if c ∈ cols then some ((lookupKey c r).getD none) else none := by
  induction cols with
  | nil => simp [reindexRow, lookupKey_nil]
  | cons c₁ cols ih =>
    show lookupKey c ((c₁, (lookupKey c₁ r).getD none) :: reindexRow cols r) = _
    rw [lookupKey_cons]
    by_cases h : c = c₁
    · rw [if_pos h, if_pos (by rw [h]; exact List.mem_cons_self _ _), h]
    · rw [if_neg h, ih]
      by_cases hm : c ∈ cols
      · rw [if_pos hm, if_pos (List.mem_cons_of_mem _ hm)]
      · rw [if_neg hm, if_neg (by simp [h, hm])]

theorem cellValue_concat_concat (x y : DataFrame) (j : Nat) (c : Str)
    (hj : j < y.rows.length) (hcy : c ∉ y.cols) (hcx : c ∈ x.cols) :
    cellValue (pdConcat x (pdConcat y (DataFrame.mk [] []))) (x.rows.length + j) c
      = some none := by
  have hm1rows : (pdConcat y (DataFrame.mk [] [])).rows
      = y.rows.map (reindexRow (pdConcat y (DataFrame.mk [] [])).cols) := by
    rw [pdConcat_rows]
    simp
  obtain ⟨r, hr⟩ : ∃ r, y.rows[j]? = some r := by
    cases h : y.rows[j]? with
    | some r => exact ⟨r, rfl⟩
    | none =>
      rw [List.getElem?_eq_none_iff] at h
      omega
  have hidx : (pdConcat x (pdConcat y (DataFrame.mk [] []))).rows[x.rows.length + j]?
      = ((pdConcat y (DataFrame.mk [] [])).rows.map
          (reindexRow (pdConcat x (pdConcat y (DataFrame.mk [] []))).cols))[j]? := by
    rw [pdConcat_rows x (pdConcat y (DataFrame.mk [] [])),
      List.getElem?_append_right (by simp)]
    simp
  have hval : (pdConcat x (pdConcat y (DataFrame.mk [] []))).rows[x.rows.length + j]?
      = some (reindexRow (pdConcat x (pdConcat y (DataFrame.mk [] []))).cols
          (reindexRow (pdConcat y (DataFrame.mk [] [])).cols r)) := by
    rw [hidx, hm1rows, List.map_map, List.getElem?_map, hr]
    rfl
  have hc2 : c ∈ (pdConcat x (pdConcat y (DataFrame.mk [] []))).cols := by
    rw [pdConcat_cols]
    exact List.mem_append_left _ hcx
  have hc1 : c ∉ (pdConcat y (DataFrame.mk [] [])).cols := by
    rw [pdConcat_cols]
    simp [hcy]
  unfold cellValue
  rw [hval]
  show lookupKey c (reindexRow (pdConcat x (pdConcat y (DataFrame.mk [] []))).cols
      (reindexRow (pdConcat y (DataFrame.mk [] [])).cols r)) = some none
  rw [lookupKey_reindexRow, if_pos hc2, lookupKey_reindexRow, if_neg hc1]
  rfl

/-- C2 counterexample: in the concrete workbook whose first sheet has
only column `"x"` and whose second has only column `"y"`, the merged
frame's cell for the first sheet's row under `"y"` is the missing
(`NaN`) marker and is not the empty string. -/
theorem merged_missing_cell_is_nan_not_empty :
    mergedCell exampleFS ("f.xlsx".data) 1 ("y".data) = some none
    ∧ ¬ mergedCell exampleFS ("f.xlsx".data) 1 ("y".data) = some (some []) := by
  exact ⟨by decide, by decide⟩

/-- C2 amended: merging a file with two sheets fills missing values only
within each sheet before concatenating, so for a column present in the
second sheet but absent from the first sheet, every merged row that came
from the first sheet reads that column as the missing (`NaN`) marker,
not as the empty string. -/
theorem merge_leaves_foreign_columns_missing (fs : FS) (file na nb c : Str)
    (a b : DataFrame) (i : Nat)
    (hread : read_xl fs file = Except.ok [(na, a), (nb, b)])
    (hca : c ∉ a.cols) (hcb : c ∈ b.cols) (hi : i < a.rows.length) :
    mergedCell fs file (b.rows.length + i) c = some none := by
  unfold mergedCell get_merged_DataFrame_of_file
  rw [hread]
  have h := cellValue_concat_concat (DataFrame.fillna [] b) (DataFrame.fillna [] a) i c
    (by rw [fillna_rows_length]; exact hi)
    (by rw [fillna_cols]; exact hca)
    (by rw [fillna_cols]; exact hcb)
  rw [fillna_rows_length] at h
  exact h

/-- Witness: the amended merge behaviour at the concrete workbook. -/
theorem merge_leaves_foreign_columns_missing_witness :
    mergedCell exampleFS ("f.xlsx".data) (exampleB.rows.length + 0) ("y".data)
      = some none :=
  merge_leaves_foreign_columns_missing exampleFS ("f.xlsx".data) ("A".data) ("B".data)
    ("y".data) exampleA exampleB 0 rfl (by decide) (by decide) (by decide)

/-! Lemmas about the collision-probe candidates. -/

theorem copy_of_file_length_gt (file : Str) (n : Nat) :
    file.length < (XL_WRITE.copy_of_file file n).length := by
  have hsplit := pyJoinDot_length_le (pySplitDot file) (pySplitDot_ne_nil file)
  rw [pyJoinDot_pySplitDot] at hsplit
  have h7 : (" - Copy".data).length = 7 := rfl
  unfold XL_WRITE.copy_of_file
  simp only [List.length_append, List.length_cons]
  omega

theorem copy_of_file_inj (file : Str) (n m : Nat)
    (h : XL_WRITE.copy_of_file file n = XL_WRITE.copy_of_file file m) : n = m := by
  have h0 : pyJoinDot (pySplitDot file).dropLast ++ (" - Copy".data)
        ++ (if n = 1 then [] else ' ' :: '(' :: (decimal n ++ [')']))
        ++ '.' :: (pySplitDot file).getLastD []
      = pyJoinDot (pySplitDot file).dropLast ++ (" - Copy".data)
        ++ (if m = 1 then [] else ' ' :: '(' :: (decimal m ++ [')']))
        ++ '.' :: (pySplitDot file).getLastD [] := h
  have h1 := List.append_cancel_right h0
  have h3 := List.append_cancel_left h1
  by_cases hn1 : n = 1 <;> by_cases hm1 : m = 1
  · rw [hn1, hm1]
  · rw [if_pos hn1, if_neg hm1] at h3
    exact absurd h3 (by simp)
  · rw [if_neg hn1, if_pos hm1] at h3
    exact absurd h3 (by simp)
  · rw [if_neg hn1, if_neg hm1] at h3
    simp only [List.cons.injEq, true_and] at h3
    exact decimal_inj n m (List.append_cancel_right h3)

theorem candidate_injective (file : Str) : Function.Injective (candidate file) := by
  intro i j h
  cases i with
  | zero =>
    cases j with
    | zero => rfl
    | succ j' =>
      exfalso
      have hlen := copy_of_file_length_gt file (j' + 1)
      have he : file = XL_WRITE.copy_of_file file (j' + 1) := h
      rw [← he] at hlen
      omega
  | succ i' =>
    cases j with
    | zero =>
      exfalso
      have hlen := copy_of_file_length_gt file (i' + 1)
      have he : XL_WRITE.copy_of_file file (i' + 1) = file := h
      rw [he] at hlen
      omega
    | succ j' =>
      have he : XL_WRITE.copy_of_file file (i' + 1) = XL_WRITE.copy_of_file file (j' + 1) := h
      have := copy_of_file_inj file (i' + 1) (j' + 1) he
      omega

theorem mem_keys_of_openWorkbook_isSome (fs : FS) (p : Str)
    (h : (openWorkbook fs p).isSome = true) : p ∈ keys fs := by
  apply (containsKey_eq_true_iff fs p).mp
  show (lookupKey p fs).isSome = true
  unfold openWorkbook at h
  cases ho : lookupKey p fs with
  | none =>
    rw [ho] at h
    exact absurd h (by decide)
  | some fc => rfl

theorem probes_bounded (fs : FS) (f : Str) (m : Nat)
    (h : ∀ i < m, (openWorkbook fs (candidate f i)).isSome = true) : m ≤ fs.length := by
  have hnd : ((List.range m).map (candidate f)).Nodup :=
    (List.nodup_range m).map (candidate_injective f)
  have hsub : (List.range m).map (candidate f) ⊆ keys fs := by
    intro x hx
    obtain ⟨i, hi, rfl⟩ := List.mem_map.mp hx
    exact mem_keys_of_openWorkbook_isSome fs _ (h i (List.mem_range.mp hi))
  have hle := (List.subperm_of_subset hnd hsub).length_le
  simpa [keys] using hle

theorem probe_none_all_isSome (fs : FS) (f : Str) :
    ∀ (fuel n : Nat), get_valid_file_name_fuel fs f fuel (candidate f n) n = none →
      ∀ i < fuel, (openWorkbook fs (candidate f (n + i))).isSome = true := by
  intro fuel
  induction fuel with
  | zero => intro n _ i hi; omega
  | succ fuel ih =>
    intro n hnone i hi
    cases ho : openWorkbook fs (candidate f n) with
    | none =>
      rw [get_valid_file_name_fuel_stop fs f (candidate f n) fuel n ho] at hnone
      exact Option.noConfusion hnone
    | some w =>
      cases i with
      | zero =>
        show (openWorkbook fs (candidate f n)).isSome = true
        rw [ho]
        rfl
      | succ i' =>
        rw [get_valid_file_name_fuel_step fs f (candidate f n) fuel n w ho] at hnone
        have hrec : get_valid_file_name_fuel fs f fuel (candidate f (n + 1)) (n + 1) = none :=
          hnone
        have hres := ih (n + 1) hrec i' (by omega)
        rw [show n + (i' + 1) = (n + 1) + i' from by omega]
        exact hres

theorem probe_some_characterization (fs : FS) (f : Str) :
    ∀ (fuel n : Nat) (r : Str),
      get_valid_file_name_fuel fs f fuel (candidate f n) n = some r →
      ∃ k, n ≤ k ∧ r = candidate f k
        ∧ (∀ j, n ≤ j → j < k → (openWorkbook fs (candidate f j)).isSome = true)
        ∧ openWorkbook fs (candidate f k) = none := by
  intro fuel
  induction fuel with
  | zero => intro n r h; exact Option.noConfusion h
  | succ fuel ih =>
    intro n r h
    cases ho : openWorkbook fs (candidate f n) with
    | none =>
      rw [get_valid_file_name_fuel_stop fs f (candidate f n) fuel n ho] at h
      have hr : candidate f n = r := by injection h
      refine ⟨n, Nat.le_refl n, hr.symm, ?_, ho⟩
      intro j hj1 hj2
      exact absurd (Nat.lt_of_le_of_lt hj1 hj2) (Nat.lt_irrefl n)
    | some w =>
      rw [get_valid_file_name_fuel_step fs f (candidate f n) fuel n w ho] at h
      have h' : get_valid_file_name_fuel fs f fuel (candidate f (n + 1)) (n + 1) = some r := h
      obtain ⟨k, hk1, hk2, hk3, hk4⟩ := ih (n + 1) r h'
      refine ⟨k, by omega, hk2, ?_, hk4⟩
      intro j hj1 hj2
      rcases Nat.eq_or_lt_of_le hj1 with he | hgt
      · rw [← he, ho]
        rfl
      · exact hk3 j hgt hj2

theorem probe_reaches_first_failure (fs : FS) (f : Str) :
    ∀ (fuel n k : Nat), n ≤ k → k < n + fuel →
      (∀ j, n ≤ j → j < k → (openWorkbook fs (candidate f j)).isSome = true) →
      openWorkbook fs (candidate f k) = none →
      get_valid_file_name_fuel fs f fuel (candidate f n) n = some (candidate f k) := by
  intro fuel
  induction fuel with
  | zero => intro n k h1 h2 _ _; omega
  | succ fuel ih =>
    intro n k h1 h2 hsome hnone
    rcases Nat.eq_or_lt_of_le h1 with he | hlt
    · subst he
      exact get_valid_file_name_fuel_stop fs f (candidate f n) fuel n hnone
    · have hs := hsome n (Nat.le_refl n) hlt
      obtain ⟨w, hw⟩ : ∃ w, openWorkbook fs (candidate f n) = some w := by
        cases ho : openWorkbook fs (candidate f n) with
        | none =>
          rw [ho] at hs
          exact absurd hs (by decide)
        | some w => exact ⟨w, rfl⟩
      rw [get_valid_file_name_fuel_step fs f (candidate f n) fuel n w hw]
      exact ih (n + 1) k hlt (by omega) (fun j hj1 hj2 => hsome j (by omega) hj2) hnone

theorem get_valid_file_name_characterization (fs : FS) (f : Str) :
    ∃ k, XL_WRITE.get_valid_file_name fs f = some (candidate f k)
      ∧ (∀ j < k, (openWorkbook fs (candidate f j)).isSome = true)
      ∧ openWorkbook fs (candidate f k) = none := by
  cases hres : XL_WRITE.get_valid_file_name fs f with
  | none =>
    exfalso
    have hres' : get_valid_file_name_fuel fs f (fs.length + 1) (candidate f 0) 0 = none := hres
    have hall := probe_none_all_isSome fs f (fs.length + 1) 0 hres'
    have hbound := probes_bounded fs f (fs.length + 1) (fun i hi => by
      have hx := hall i hi
      simpa using hx)
    omega
  | some r =>
    have hres' : get_valid_file_name_fuel fs f (fs.length + 1) (candidate f 0) 0 = some r := hres
    obtain ⟨k, _, hk2, hk3, hk4⟩ := probe_some_characterization fs f (fs.length + 1) 0 r hres'
    refine ⟨k, ?_, fun j hj => hk3 j (Nat.zero_le j) hj, hk4⟩
    rw [hk2]

/-- C1 (confirmed): with `overwrite=false` the writer probes the exact
target first and then, for the n-th collision, the name produced by
`copy_of_file` from the original target (`" - Copy"` inserted before the
final dot-delimited extension segment, and `" - Copy (n)"` for n of 2 or
more); every candidate before the returned one opens as a valid
workbook, the returned candidate does not, and the write goes to that
returned candidate. -/
theorem write_probes_copy_candidates (fs : FS) (ok : Str → Bool) (file : Str)
    (d : List (Str × DataFrame)) :
    ∃ k, XL_WRITE.get_valid_file_name fs file = some (candidate file k)
      ∧ (∀ j < k, (openWorkbook fs (candidate file j)).isSome = true)
      ∧ openWorkbook fs (candidate file k) = none
      ∧ candidate file 0 = file
      ∧ (∀ j, candidate file (j + 1) = XL_WRITE.copy_of_file file (j + 1))
      ∧ write_to_xl fs ok file d false
          = some (dictSet fs (candidate file k)
              (FileContent.workbook (writeSheets ok d).1)) := by
  obtain ⟨k, h1, h2, h3⟩ := get_valid_file_name_characterization fs file
  refine ⟨k, h1, h2, h3, rfl, fun j => rfl, ?_⟩
  show XL_WRITE.write fs ok file d false = _
  unfold XL_WRITE.write
  rw [h1]
  rfl

/-- C7 (confirmed): a probe candidate that fails to open as a workbook —
here one that exists on disk but is malformed — terminates the loop:
the candidate is returned as the available destination. -/
theorem probe_open_failure_is_available (fs : FS) (file : Str) (k : Nat)
    (h1 : ∀ j < k, (openWorkbook fs (candidate file j)).isSome = true)
    (h2 : lookupKey (candidate file k) fs = some FileContent.invalid) :
    XL_WRITE.get_valid_file_name fs file = some (candidate file k) := by
  have hnone : openWorkbook fs (candidate file k) = none := by
    unfold openWorkbook
    rw [h2]
  have hk : k ≤ fs.length := probes_bounded fs file k h1
  show get_valid_file_name_fuel fs file (fs.length + 1) (candidate file 0) 0 = _
  exact probe_reaches_first_failure fs file (fs.length + 1) 0 k (Nat.zero_le k)
    (by omega) (fun j _ hj => h1 j hj) hnone

/-- Witness: a malformed file at the exact target path is treated as
available and returned unchanged. -/
theorem probe_open_failure_is_available_witness :
    XL_WRITE.get_valid_file_name [("a.xlsx".data, FileContent.invalid)] ("a.xlsx".data)
      = some (candidate ("a.xlsx".data) 0) :=
  probe_open_failure_is_available [("a.xlsx".data, FileContent.invalid)]
    ("a.xlsx".data) 0 (fun j hj => absurd hj (Nat.not_lt_zero j)) (by decide)
